import Mathlib

/-!
Verification of the sliding-window rate limiter in
`src/lib/server/ratelimiter.ts` (HackerGPT-2.0).

The limiter keeps, per (user, resource-class) storage key, a sorted set of
event timestamps (epoch milliseconds; each timestamp is both member and
score) in an external Redis-like store, plus a per-key expiry.  The store
client itself (`getRedis`) and the tier lookup (`isPremiumUser`) are not part
of the sources; they are modelled from the spec's store contract (§6): the
store maps keys to records, `zrange key 0 0` returns the least member when
the record is nonempty, `zcard` returns the cardinality, `zadd` inserts,
`del` empties a record, `expire` sets its expiry.  All JavaScript numbers
that the limiter manipulates are integers (epoch milliseconds, counts,
configured integer ceilings); they are embedded as `Int`.  A possibly-NaN
number (the result of `Number(...)` on a non-numeric string) is embedded as
`Option Int` with `none` for NaN, and the JS comparison `a >= b` (false when
an operand is NaN) is embedded by `jsGeOpt`.
-/

/-- Modelled from the spec (§3 Window Record, §6 store contract): the
per-key state held in the external ordered-set store — the set of event
timestamps (member = score, so a `Finset`) and the expiry set by `expire`
(in seconds, `none` when no expiry has been set).  The store client
(`getRedis`) is not among the sources. -/
structure WindowRecord where
  events : Finset Int
  ttl : Option Int
deriving DecidableEq

/-- Modelled from the spec (§6): the shared store, a total map from storage
keys to window records; an absent key is a record with no events. -/
abbrev Store := String → WindowRecord

/-- The record with no events and no expiry (an absent key). -/
def emptyRecord : WindowRecord := ⟨∅, none⟩

/-- The store in which every key is absent. -/
def emptyStore : Store := fun _ => emptyRecord

/-- Modelled from the spec (§6): `zadd key {score: t, member: t}` — insert
the timestamp `t` into the record at `k` (set semantics: re-adding an
existing member leaves the record unchanged), touching no other key. -/
def zaddKey (st : Store) (k : String) (t : Int) : Store :=
  fun k' => if k' = k then ⟨insert t (st k).events, (st k).ttl⟩ else st k'

/-- Modelled from the spec (§6): `del key` — remove the record at `k`. -/
def delKey (st : Store) (k : String) : Store :=
  fun k' => if k' = k then emptyRecord else st k'

/-- Modelled from the spec (§6): `expire key secs` — set the expiry of the
record at `k`. -/
def expireKey (st : Store) (k : String) (secs : Option Int) : Store :=
  fun k' => if k' = k then ⟨(st k).events, secs⟩ else st k'

/-- Modelled from the spec (§6): `zrange key 0 0 withScores` — the least
member of the record at `k`, or `none` when the record is absent/empty.
The source destructures this as `[firstMessageTime]` and guards with
`!firstMessageTime`; the guard is embedded as the `none` test (members are
epoch-millisecond timestamps produced by `Date.now()`). -/
def zrangeFirst (st : Store) (k : String) : Option Int :=
  if h : (st k).events.Nonempty then some ((st k).events.min' h) else none

/-- Modelled from the spec (§6): `zcard key` — the cardinality of the
record at `k`. -/
def zcardKey (st : Store) (k : String) : Nat :=
  (st k).events.card

/-- JavaScript `a >= b` where `b` may be NaN (embedded `none`): any
comparison with NaN is false. -/
def jsGeOpt (a : Int) : Option Int → Bool
  | some b => decide (b ≤ a)
  | none => false

/-- JavaScript `Math.ceil(a / b)` for integers `a` and positive `b`
(used by the source as `Math.ceil(timeWindow / 1000)`). -/
def jsCeilDiv (a b : Int) : Int := -((-a) / b)

/-- The result object built by the limiter (`RateLimitResult` in the
source).  The TypeScript union says `timeRemaining` is `null` exactly on the
allowed branch, but the denied branch builds its `timeRemaining` with a
non-null assertion (`timeRemaining!`) from a possibly-null value, so the
embedding keeps `timeRemaining : Option Int` on both branches (`none` =
`null`). -/
structure RateLimitResult where
  allowed : Bool
  remaining : Int
  timeRemaining : Option Int
deriving DecidableEq

/-- `getRemaining` (src/lib/server/ratelimiter.ts:57-85) with the two
configuration reads hoisted to parameters: `limit` is the value of
`_getLimit(model, isPremium)` and `timeWindow` the value of
`getTimeWindow(model)` (`none` = NaN), both computed from the same
environment at the top of the source function; `storageKey` is
`_makeStorageKey(userId, model)`.  Returns the pair
`[remaining, timeRemaining]`.  The read path issues only `zrange`/`zcard`
and never mutates the store. -/
def getRemainingCore (limit : Int) (timeWindow : Option Int) (now : Int)
    (st : Store) (storageKey : String) : Int × Option Int :=
  match zrangeFirst st storageKey with
  | none => (limit, none)
  | some firstMessageTime =>
    let count : Int := zcardKey st storageKey
    let windowEndTime := timeWindow.map (fun w => firstMessageTime + w)
    if jsGeOpt now windowEndTime then
      (limit, none)
    else
      let remaining := max 0 (limit - count)
      (remaining, if remaining = 0 then windowEndTime.map (fun v => v - now) else none)

/-- `_addRequest` (src/lib/server/ratelimiter.ts:121-140) with the
configuration read hoisted: `timeWindow` is `getTimeWindow(model)`.  When
the record is absent or the window has lapsed, atomically (one `multi`
transaction) delete the record, insert a single event at `now` and set the
expiry to `Math.ceil(timeWindow / 1000)` seconds; otherwise insert the
event into the existing record. -/
def _addRequestCore (timeWindow : Option Int) (now : Int) (st : Store)
    (key : String) : Store :=
  match zrangeFirst st key with
  | none =>
    expireKey (zaddKey (delKey st key) key now) key
      (timeWindow.map (fun w => jsCeilDiv w 1000))
  | some firstMessageTime =>
    if jsGeOpt (now - firstMessageTime) timeWindow then
      expireKey (zaddKey (delKey st key) key now) key
        (timeWindow.map (fun w => jsCeilDiv w 1000))
    else
      zaddKey st key now

/-- `_ratelimit` (src/lib/server/ratelimiter.ts:39-55) with the
configuration reads hoisted as in `getRemainingCore`: read the remaining
budget; when it is `0` return the denied result (carrying the possibly-null
`timeRemaining!`) without touching the store; otherwise record the request
and return the allowed result with `remaining - 1`. -/
def _ratelimitCore (limit : Int) (timeWindow : Option Int) (now : Int)
    (st : Store) (storageKey : String) : RateLimitResult × Store :=
  let r := getRemainingCore limit timeWindow now st storageKey
  if r.1 = 0 then
    (⟨false, r.1, r.2⟩, st)
  else
    (⟨true, r.1 - 1, none⟩, _addRequestCore timeWindow now st storageKey)

/-- Modelled from the spec (§6 Configuration): environment-style key/value
settings (`process.env`), a total map from setting names to optional string
values. -/
abbrev Env := String → Option String

/-- ASCII whitespace, for the leading/trailing trim JavaScript `Number()`
performs on its string argument. -/
def isJsSpace (c : Char) : Bool :=
  c = ' ' ∨ c = '\t' ∨ c = '\n' ∨ c = '\r'

/-- Strip leading and trailing whitespace (the trim `Number()` applies). -/
def jsTrim (s : String) : String :=
  ⟨((s.data.dropWhile isJsSpace).reverse.dropWhile isJsSpace).reverse⟩

/-- Decimal value of a digit list (most significant first). -/
def digitsVal (ds : List Char) : Int :=
  ds.foldl (fun n c => 10 * n + (c.toNat - '0'.toNat : Int)) 0

/-- JavaScript `Number(s)` on the integer-literal subset exercised by the
limiter's configuration: optional surrounding whitespace, optional sign,
decimal digits; the empty (or all-whitespace) string converts to `0`;
every other string is modelled as NaN (`none`).  Fractional, exponent, hex,
octal, binary and `Infinity` literals are outside the model — no
configuration in the claims uses them. -/
def jsNumber (s : String) : Option Int :=
  let t := jsTrim s
  if t.data = [] then some 0
  else
    match t.data with
    | '+' :: ds => if ds ≠ [] ∧ ds.all Char.isDigit then some (digitsVal ds) else none
    | '-' :: ds => if ds ≠ [] ∧ ds.all Char.isDigit then some (-(digitsVal ds)) else none
    | ds => if ds.all Char.isDigit then some (digitsVal ds) else none

/-- JavaScript `Number(process.env[key])`: `Number(undefined)` is NaN. -/
def jsNumberOfEnv : Option String → Option Int
  | none => none
  | some s => jsNumber s

/-- JavaScript `s.toLowerCase()` on the ASCII values the configuration
uses. -/
def jsToLower (s : String) : String := ⟨s.data.map Char.toLower⟩

/-- JavaScript `s.toUpperCase()` on the ASCII model names the source
uses. -/
def jsToUpper (s : String) : String := ⟨s.data.map Char.toUpper⟩

/-- JavaScript global replacement of the hyphen by the underscore
(`s.replace` with the global hyphen pattern and `"_"`). -/
def jsReplaceHyphens (s : String) : String :=
  ⟨s.data.map (fun c => if c = '-' then '_' else c)⟩

/-- JavaScript `s.startsWith(p)`. -/
def startsWithJs (s p : String) : Bool :=
  p.data.isPrefixOf s.data

/-- `isRateLimiterEnabled` (src/lib/server/ratelimiter.ts:35-37):
`process.env.RATELIMITER_ENABLED?.toLowerCase() === "true"` — `false`
whenever the variable is unset or set to anything that does not lowercase
to `"true"`. -/
def isRateLimiterEnabled (env : Env) : Bool :=
  match env "RATELIMITER_ENABLED" with
  | none => false
  | some v => decide (jsToLower v = "true")

/-- `getTimeWindow` (src/lib/server/ratelimiter.ts:87-93): the configured
window size in minutes (a per-resource-class setting name), converted by
`Number(...)` (NaN when unset or non-numeric) and scaled to
milliseconds. -/
def getTimeWindow (env : Env) (model : String) : Option Int :=
  let key := if model = "plugins" then "RATELIMITER_TIME_PLUGINS_WINDOW_MINUTES"
             else "RATELIMITER_TIME_WINDOW_MINUTES"
  (jsNumberOfEnv (env key)).map (fun m => m * 60 * 1000)

/-- `_getFixedModelName` (src/lib/server/ratelimiter.ts:142-146): collapse
every model whose name starts with `"gpt-4"` to `"gpt-4"`, then replace
hyphens with underscores and uppercase. -/
def _getFixedModelName (model : String) : String :=
  jsToUpper (jsReplaceHyphens (if startsWithJs model "gpt-4" then "gpt-4" else model))

/-- `_makeStorageKey` (src/lib/server/ratelimiter.ts:148-151):
`ratelimit:${userId}:${fixedModelName}`. -/
def _makeStorageKey (userId model : String) : String :=
  "ratelimit:" ++ userId ++ ":" ++ _getFixedModelName model

/-- The configuration name `_getLimit` looks up: for `"plugins"` the
upper-cased model itself, otherwise the fixed model name, suffixed with the
tier. -/
def limitKeyOf (model : String) (isPremium : Bool) : String :=
  if model = "plugins" then
    "RATELIMITER_LIMIT_" ++ jsToUpper model ++ "_" ++ (if isPremium then "PREMIUM" else "FREE")
  else
    "RATELIMITER_LIMIT_" ++ _getFixedModelName model ++ "_" ++ (if isPremium then "PREMIUM" else "FREE")

/-- `_getLimit` (src/lib/server/ratelimiter.ts:95-119): the configured
ceiling for (resource class, tier); an absent setting falls back to `15`
(free) / `30` (premium); then `if (isNaN(limit) || limit < 0) throw new
Error("Invalid limit configuration")`.  The throw is embedded as
`Except.error`. -/
def _getLimit (env : Env) (model : String) (isPremium : Bool) : Except String Int :=
  let limit : Option Int :=
    match env (limitKeyOf model isPremium) with
    | none => some (if isPremium then 30 else 15)
    | some v => jsNumber v
  match limit with
  | none => .error "Invalid limit configuration"
  | some n => if n < 0 then .error "Invalid limit configuration" else .ok n

/-- `getRemaining` (src/lib/server/ratelimiter.ts:57-85): derive the
storage key, the window size and the limit from the configuration (the
limit resolution can throw) and run the read path. -/
def getRemaining (env : Env) (now : Int) (st : Store) (userId model : String)
    (isPremium : Bool) : Except String (Int × Option Int) :=
  match _getLimit env model isPremium with
  | .error e => .error e
  | .ok limit =>
    .ok (getRemainingCore limit (getTimeWindow env model) now st (_makeStorageKey userId model))

/-- `_addRequest` (src/lib/server/ratelimiter.ts:121-140) at the
environment level. -/
def _addRequest (env : Env) (now : Int) (st : Store) (key model : String) : Store :=
  _addRequestCore (getTimeWindow env model) now st key

/-- `_ratelimit` (src/lib/server/ratelimiter.ts:39-55) at the environment
level: the configuration is read once per call (the source re-reads the
same unchanged environment inside `getRemaining` and `_addRequest`). -/
def _ratelimit (env : Env) (now : Int) (st : Store) (model userId : String)
    (isPremium : Bool) : Except String (RateLimitResult × Store) :=
  match _getLimit env model isPremium with
  | .error e => .error e
  | .ok limit =>
    .ok (_ratelimitCore limit (getTimeWindow env model) now st (_makeStorageKey userId model))

/-- `ratelimit` (src/lib/server/ratelimiter.ts:24-33): the check-and-
increment operation.  When the limiter is not enabled it short-circuits to
`{allowed: true, remaining: -1, timeRemaining: null}` without touching the
store.  The tier lookup `isPremiumUser` is not among the sources and is
modelled from the spec (§6, `isPremiumTier(userId) -> bool`) as the
function `premiumOf`. -/
def ratelimit (env : Env) (premiumOf : String → Bool) (now : Int) (st : Store)
    (userId model : String) : Except String (RateLimitResult × Store) :=
  if isRateLimiterEnabled env then
    _ratelimit env now st model userId (premiumOf userId)
  else
    .ok (⟨true, -1, none⟩, st)

/-- `checkRateLimitWithoutIncrementing` (src/lib/server/ratelimiter.ts:
232-249): the peek operation — identical disabled/tier/accounting
resolution, but it never calls `_addRequest`; its result type carries no
store because the function issues only the `zrange`/`zcard` reads of
`getRemaining`. -/
def checkRateLimitWithoutIncrementing (env : Env) (premiumOf : String → Bool)
    (now : Int) (st : Store) (userId model : String) : Except String RateLimitResult :=
  if isRateLimiterEnabled env then
    match getRemaining env now st userId model (premiumOf userId) with
    | .error e => .error e
    | .ok r =>
      if r.1 = 0 then .ok ⟨false, 0, r.2⟩ else .ok ⟨true, r.1, none⟩
  else
    .ok ⟨true, -1, none⟩

/-! ### Claim C2: the read path (`getRemaining`) -/

/-- The remaining-budget computation as the spec words it (§4.2 steps 3–5,
claim C2): full budget when the record is absent/empty; full budget when
`now >= earliestTimestamp + windowSizeMs` (lapsed window); otherwise
`(max(0, limit - cardinality), remaining == 0 ? windowEnd - now : null)`.
Stated directly on the record's event set, for comparison with
`getRemainingCore`. -/
def remainingBudgetSpec (limit w now : Int) (events : Finset Int) : Int × Option Int :=
  if h : events.Nonempty then
    let earliest := events.min' h
    let windowEnd := earliest + w
    if now ≥ windowEnd then (limit, none)
    else
      let remaining := max 0 (limit - events.card)
      (remaining, if remaining = 0 then some (windowEnd - now) else none)
  else (limit, none)

/-- C2 (confirmed): for every resolved limit and window size, every clock
value and every store, `getRemaining`'s read path returns exactly what the
spec describes — `(limit, null)` on an absent/empty record, `(limit, null)`
on a lapsed window (`now >= earliest + windowSizeMs`), and otherwise
`(max(0, limit - cardinality), windowEnd - now if that remaining is 0 else
null)`; and it is a pure function of the store (it performs no mutation:
its result contains no store and `_ratelimit` passes the store it was
given to `_addRequest` unchanged). -/
theorem getRemaining_matches_spec (limit w now : Int) (st : Store) (k : String) :
    getRemainingCore limit (some w) now st k = remainingBudgetSpec limit w now (st k).events := by
  by_cases h : (st k).events.Nonempty
  · simp only [getRemainingCore, remainingBudgetSpec, zrangeFirst, zcardKey, jsGeOpt,
      dif_pos h, Option.map_some', ge_iff_le]
    by_cases hge : (st k).events.min' h + w ≤ now
    · simp [hge]
    · simp [hge]
  · simp only [getRemainingCore, remainingBudgetSpec, zrangeFirst, dif_neg h]

/-! ### Claim C3: the mutation path (`_addRequest`) -/

/-- The mathematical ceiling of `w / 1000` agrees with the source's
`Math.ceil(timeWindow / 1000)`. -/
theorem jsCeilDiv_1000 (w : Int) : jsCeilDiv w 1000 = (w + 999) / 1000 := by
  unfold jsCeilDiv
  omega

/-- The mutation as the spec words it (§4.4, claim C3): when the record is
absent or `now - earliestTimestamp >= windowSizeMs`, replace the record by
the single event `now` with expiry `ceil(windowSizeMs / 1000)` seconds;
otherwise insert one additional event at `now` leaving the expiry
untouched.  No other key changes. -/
def recordEventSpec (w now : Int) (st : Store) (key : String) : Store :=
  let freshRecord : WindowRecord := ⟨{now}, some ((w + 999) / 1000)⟩
  match (if h : (st key).events.Nonempty then some ((st key).events.min' h) else none) with
  | none => fun k' => if k' = key then freshRecord else st k'
  | some earliest =>
    if now - earliest ≥ w then
      fun k' => if k' = key then freshRecord else st k'
    else
      fun k' => if k' = key then ⟨insert now (st key).events, (st key).ttl⟩ else st k'

/-- C3 (confirmed): for every resolved window size, clock value, store and
key, `_addRequest` performs exactly the spec's mutation: reset to a single
event at `now` with expiry `ceil(windowSizeMs / 1000)` when the record is
absent or lapsed, plain insertion leaving the expiry untouched otherwise. -/
theorem addRequest_matches_spec (w now : Int) (st : Store) (key : String) :
    _addRequestCore (some w) now st key = recordEventSpec w now st key := by
  funext k'
  by_cases h : (st key).events.Nonempty
  · simp only [_addRequestCore, recordEventSpec, zrangeFirst, jsGeOpt, dif_pos h,
      Option.map_some', ge_iff_le]
    by_cases hge : w ≤ now - (st key).events.min' h
    · simp only [hge, decide_eq_true_eq, if_pos hge, jsCeilDiv_1000]
      by_cases hk : k' = key <;>
        simp [expireKey, zaddKey, delKey, emptyRecord, hk]
    · simp only [hge, decide_eq_true_eq, if_neg hge]
      by_cases hk : k' = key <;> simp [zaddKey, hk]
  · simp only [_addRequestCore, recordEventSpec, zrangeFirst, dif_neg h,
      Option.map_some', jsCeilDiv_1000]
    by_cases hk : k' = key <;>
      simp [expireKey, zaddKey, delKey, emptyRecord, hk]

/-! ### Claim C9: storage-key derivation -/

/-- C9 (confirmed): `storageKey(u, "gpt-4-turbo")` equals
`storageKey(u, "gpt-4")` (family-prefix canonicalization); for distinct
users the keys for `"gpt-4"` differ; and equal inputs always yield
identical keys (the derivation is a pure function). -/
theorem storageKey_derivation :
    (∀ u, _makeStorageKey u "gpt-4-turbo" = _makeStorageKey u "gpt-4") ∧
    (∀ u u2, u ≠ u2 → _makeStorageKey u "gpt-4" ≠ _makeStorageKey u2 "gpt-4") ∧
    (∀ u m, _makeStorageKey u m = _makeStorageKey u m) := by
  have hf : _getFixedModelName "gpt-4-turbo" = _getFixedModelName "gpt-4" := by decide
  refine ⟨fun u => by simp only [_makeStorageKey, hf], ?_, fun u m => rfl⟩
  intro u u2 hne heq
  apply hne
  have h := congrArg String.data heq
  simp only [_makeStorageKey, String.data_append, List.append_assoc] at h
  have h2 := List.append_cancel_right (List.append_cancel_left h)
  cases u; cases u2
  exact congrArg String.mk h2

/-- Witness for C9: the distinct users `"a"` and `"b"` yield distinct
keys. -/
theorem storageKey_derivation_witness :
    ("a" : String) ≠ "b" ∧
    _makeStorageKey "a" "gpt-4" ≠ _makeStorageKey "b" "gpt-4" :=
  ⟨by decide, storageKey_derivation.2.1 "a" "b" (by decide)⟩

/-! ### Claim C6: the disabled-limiter bypass -/

/-- C6 counterexample: with no configuration at all (every setting unset)
the limiter is NOT enabled, and check-and-increment already returns the
bypass result `Allowed{remaining: -1, timeRemaining: null}` — so the
disabled bypass IS the default behavior when no configuration is set,
contradicting the claim's "not the default" part. -/
theorem disabledBypass_cex :
    isRateLimiterEnabled (fun _ => none) = false ∧
    ((ratelimit (fun _ => none) (fun _ => false) 0 emptyStore "u" "gpt-4").toOption.map
        Prod.fst = some ⟨true, -1, none⟩) ∧
    ((checkRateLimitWithoutIncrementing (fun _ => none) (fun _ => false) 0 emptyStore
        "u" "gpt-4").toOption = some ⟨true, -1, none⟩) := by
  decide

/-- C6 (corrected): whenever the limiter is not enabled — which is the
case exactly when `RATELIMITER_ENABLED` is unset or does not lowercase to
`"true"`, hence by default — both check-and-increment and peek return
`Allowed{remaining: -1, timeRemaining: null}` regardless of prior usage and
without touching the store; the limiter is enabled only by the explicit
configuration `RATELIMITER_ENABLED = "true"` (case-insensitively), so the
bypass, not the limiting, is the default. -/
theorem disabledBypass_amended (env : Env) (premiumOf : String → Bool) (now : Int)
    (st : Store) (userId model : String) :
    (isRateLimiterEnabled env = false →
      ratelimit env premiumOf now st userId model = .ok (⟨true, -1, none⟩, st) ∧
      checkRateLimitWithoutIncrementing env premiumOf now st userId model
        = .ok ⟨true, -1, none⟩) ∧
    (isRateLimiterEnabled env = true ↔
      ∃ v, env "RATELIMITER_ENABLED" = some v ∧ jsToLower v = "true") := by
  constructor
  · intro h
    constructor
    · unfold ratelimit
      rw [h]
      simp
    · unfold checkRateLimitWithoutIncrementing
      rw [h]
      simp
  · unfold isRateLimiterEnabled
    cases henv : env "RATELIMITER_ENABLED" with
    | none => simp
    | some v => simp

/-- Witness for C6: the amended theorem applied to the empty
configuration. -/
theorem disabledBypass_amended_witness :
    isRateLimiterEnabled (fun _ => none) = false ∧
    ratelimit (fun _ => none) (fun _ => false) 0 emptyStore "u" "gpt-4"
      = .ok (⟨true, -1, none⟩, emptyStore) :=
  ⟨by decide,
    ((disabledBypass_amended (fun _ => none) (fun _ => false) 0 emptyStore "u"
      "gpt-4").1 (by decide)).1⟩

/-! ### Claim C7: limit resolution -/

/-- C7 (confirmed): limit resolution returns the defaults 15 (free) / 30
(premium) when no ceiling is configured for the (resource class, tier)
setting name; a configured value that is non-numeric (NaN under
`Number(...)`) or negative makes it throw `"Invalid limit configuration"`
rather than silently falling back; a configured non-negative value is
returned as is; and it throws if and only if a configured value is present
and non-numeric or negative. -/
theorem limitResolution (env : Env) (model : String) (isPremium : Bool) :
    (env (limitKeyOf model isPremium) = none →
      _getLimit env model isPremium = .ok (if isPremium then 30 else 15)) ∧
    (∀ v, env (limitKeyOf model isPremium) = some v →
      (jsNumber v = none →
        _getLimit env model isPremium = .error "Invalid limit configuration") ∧
      (∀ n, jsNumber v = some n →
        (n < 0 →
          _getLimit env model isPremium = .error "Invalid limit configuration") ∧
        (0 ≤ n → _getLimit env model isPremium = .ok n))) ∧
    ((∃ e, _getLimit env model isPremium = .error e) ↔
      (∃ v, env (limitKeyOf model isPremium) = some v ∧
        (jsNumber v = none ∨ ∃ n, jsNumber v = some n ∧ n < 0))) := by
  refine ⟨?_, ?_, ?_⟩
  · intro h
    cases isPremium <;> simp [_getLimit, h]
  · intro v hv
    refine ⟨?_, ?_⟩
    · intro hn
      simp [_getLimit, hv, hn]
    · intro n hn
      constructor
      · intro hneg
        simp [_getLimit, hv, hn, hneg]
      · intro hpos
        simp [_getLimit, hv, hn, not_lt.mpr hpos]
  · cases henv : env (limitKeyOf model isPremium) with
    | none =>
      cases isPremium <;> simp [_getLimit, henv]
    | some v =>
      cases hn : jsNumber v with
      | none => simp [_getLimit, henv, hn]
      | some n =>
        by_cases hneg : n < 0
        · simp [_getLimit, henv, hn, hneg]
        · simp [_getLimit, henv, hn, hneg]

/-- Witness for C7: with the empty configuration the free-tier default 15
is resolved for `"gpt-4"`. -/
theorem limitResolution_witness :
    ((fun _ => none : Env) (limitKeyOf "gpt-4" false) = none) ∧
    _getLimit (fun _ => none) "gpt-4" false = .ok 15 :=
  ⟨rfl, (limitResolution (fun _ => none) "gpt-4" false).1 rfl⟩

/-! ### Claim C8: input validation -/

/-- A configuration that enables the limiter and sets a 1-minute window,
with no ceilings configured (the defaults apply). -/
def envEnabled : Env := fun k =>
  if k = "RATELIMITER_ENABLED" then some "true"
  else if k = "RATELIMITER_TIME_WINDOW_MINUTES" then some "1"
  else none

/-- C8 counterexample: with the limiter enabled, a call with an EMPTY user
identifier and an unknown resource class is not rejected at all — both
operations return a successful `Allowed` admission result (and
check-and-increment even records the event in the store), so no typed
InvalidInput failure is produced before store access. -/
theorem invalidInput_cex :
    ((ratelimit envEnabled (fun _ => false) 5 emptyStore "" "unknown-model-xyz").toOption.map
        Prod.fst = some ⟨true, 14, none⟩) ∧
    ((checkRateLimitWithoutIncrementing envEnabled (fun _ => false) 5 emptyStore ""
        "unknown-model-xyz").toOption = some ⟨true, 15, none⟩) := by
  decide

/-- Both error exits of `_getLimit` carry the configuration-error
message. -/
theorem _getLimit_error_eq (env : Env) (model : String) (p : Bool) (e : String)
    (h : _getLimit env model p = .error e) : e = "Invalid limit configuration" := by
  unfold _getLimit at h
  cases henv : env (limitKeyOf model p) with
  | none =>
    simp only [henv] at h
    cases p <;> simp_all
  | some v =>
    simp only [henv] at h
    cases hn : jsNumber v with
    | none =>
      simp only [hn] at h
      simp at h
      exact h.symm
    | some n =>
      simp only [hn] at h
      by_cases hneg : n < 0
      · simp [hneg] at h
        exact h.symm
      · simp [hneg] at h

/-- C8 (corrected): the admission operations perform no input validation —
there is no InvalidInput failure in the code.  The only typed failure
either operation can surface is the `"Invalid limit configuration"`
configuration error; in particular, calls with an empty user identifier or
an unknown resource class proceed (with the default ceilings and a
verbatim-derived storage key) to store access. -/
theorem invalidInput_amended (env : Env) (premiumOf : String → Bool) (now : Int)
    (st : Store) (userId model : String) :
    (∀ e, ratelimit env premiumOf now st userId model = .error e →
      e = "Invalid limit configuration") ∧
    (∀ e, checkRateLimitWithoutIncrementing env premiumOf now st userId model = .error e →
      e = "Invalid limit configuration") := by
  constructor
  · intro e h
    unfold ratelimit at h
    by_cases hen : isRateLimiterEnabled env
    · rw [if_pos hen] at h
      unfold _ratelimit at h
      cases hg : _getLimit env model (premiumOf userId) with
      | error e' =>
        simp only [hg] at h
        simp at h
        rw [← h]
        exact _getLimit_error_eq _ _ _ _ hg
      | ok l =>
        simp only [hg] at h
        simp at h
    · rw [if_neg hen] at h
      simp at h
  · intro e h
    unfold checkRateLimitWithoutIncrementing at h
    by_cases hen : isRateLimiterEnabled env
    · rw [if_pos hen] at h
      unfold getRemaining at h
      cases hg : _getLimit env model (premiumOf userId) with
      | error e' =>
        simp only [hg] at h
        simp at h
        rw [← h]
        exact _getLimit_error_eq _ _ _ _ hg
      | ok l =>
        simp only [hg] at h
        split at h <;> simp at h
    · rw [if_neg hen] at h
      simp at h

/-- A configuration that enables the limiter and configures a negative
ceiling for the free tier of the gpt-4 family. -/
def envBadLimit : Env := fun k =>
  if k = "RATELIMITER_ENABLED" then some "true"
  else if k = "RATELIMITER_LIMIT_GPT_4_FREE" then some "-1"
  else none

/-- Witness for C8: the amended theorem applied where the configuration
error actually fires. -/
theorem invalidInput_amended_witness :
    ratelimit envBadLimit (fun _ => false) 0 emptyStore "u" "gpt-4"
      = .error "Invalid limit configuration" ∧
    "Invalid limit configuration" = "Invalid limit configuration" :=
  ⟨by rfl,
    (invalidInput_amended envBadLimit (fun _ => false) 0 emptyStore "u" "gpt-4").1
      "Invalid limit configuration" (by rfl)⟩

/-! ### Claim C10: the shape of Denied and Allowed results -/

/-- A configuration that enables the limiter with a 1-minute window and a
ZERO ceiling for the free tier of the gpt-4 family. -/
def envZeroLimit : Env := fun k =>
  if k = "RATELIMITER_ENABLED" then some "true"
  else if k = "RATELIMITER_TIME_WINDOW_MINUTES" then some "1"
  else if k = "RATELIMITER_LIMIT_GPT_4_FREE" then some "0"
  else none

/-- C10 counterexample: with a configured limit of `0` (a legal
configuration — `_getLimit` accepts any non-negative value) and an empty
record, check-and-increment returns a Denied result whose `timeRemaining`
is `null` (the source's `timeRemaining!` asserts away a null), not a
strictly positive number. -/
theorem deniedPositive_cex :
    (ratelimit envZeroLimit (fun _ => false) 0 emptyStore "u" "gpt-4").toOption.map
        Prod.fst = some ⟨false, 0, none⟩ := by
  decide

/-- When the resolved limit is positive, a zero remaining budget forces a
strictly positive `windowEnd - now` in the read path. -/
theorem getRemainingCore_denied_pos (L w now : Int) (st : Store) (k : String)
    (hL : 0 < L) (h0 : (getRemainingCore L (some w) now st k).1 = 0) :
    ∃ t, (getRemainingCore L (some w) now st k).2 = some t ∧ 0 < t := by
  unfold getRemainingCore at h0 ⊢
  cases hz : zrangeFirst st k with
  | none =>
    rw [hz] at h0
    simp at h0
    omega
  | some e =>
    rw [hz] at h0
    by_cases hge : e + w ≤ now
    · exfalso
      simp [jsGeOpt, hge] at h0
      omega
    · simp only [jsGeOpt, Option.map_some', decide_eq_true_eq, if_neg hge] at h0
      refine ⟨e + w - now, ?_, by omega⟩
      simp [jsGeOpt, hge, h0]

/-- The result of one core check-and-increment call, with a positive
resolved limit: Allowed carries `timeRemaining = null`; Denied carries
`remaining = 0` and a strictly positive `timeRemaining = windowEnd -
now`. -/
theorem _ratelimitCore_result_shape (L w now : Int) (st : Store) (k : String)
    (hL : 0 < L) :
    ((_ratelimitCore L (some w) now st k).1.allowed = true →
      (_ratelimitCore L (some w) now st k).1.timeRemaining = none) ∧
    ((_ratelimitCore L (some w) now st k).1.allowed = false →
      (_ratelimitCore L (some w) now st k).1.remaining = 0 ∧
      ∃ t, (_ratelimitCore L (some w) now st k).1.timeRemaining = some t ∧ 0 < t) := by
  unfold _ratelimitCore
  by_cases h0 : (getRemainingCore L (some w) now st k).1 = 0
  · obtain ⟨t, ht, htpos⟩ := getRemainingCore_denied_pos L w now st k hL h0
    simp [h0, ht, htpos]
  · simp [h0]

/-- The result of one peek call, with a positive resolved limit: same
shape facts. -/
theorem checkCore_result_shape (L w now : Int) (st : Store) (k : String)
    (hL : 0 < L) :
    ∀ r : RateLimitResult,
      r = (if (getRemainingCore L (some w) now st k).1 = 0 then
            ⟨false, 0, (getRemainingCore L (some w) now st k).2⟩
          else ⟨true, (getRemainingCore L (some w) now st k).1, none⟩) →
      (r.allowed = true → r.timeRemaining = none) ∧
      (r.allowed = false → r.remaining = 0 ∧
        ∃ t, r.timeRemaining = some t ∧ 0 < t) := by
  intro r hr
  by_cases h0 : (getRemainingCore L (some w) now st k).1 = 0
  · obtain ⟨t, ht, htpos⟩ := getRemainingCore_denied_pos L w now st k hL h0
    rw [if_pos h0] at hr
    subst hr
    simp [ht, htpos]
  · rw [if_neg h0] at hr
    subst hr
    simp

/-- C10 (corrected): provided the resolved limit is positive and the
window size is a number, every Denied result produced by `_ratelimit` or
`checkRateLimitWithoutIncrementing` carries `remaining = 0` and a strictly
positive `timeRemaining` (it equals `windowEnd - now`, positive because a
Denied result with a nonzero limit is only produced when `now <
windowEnd`), and every Allowed result carries `timeRemaining = null`.
(With a resolved limit of `0`, a Denied result with `timeRemaining = null`
IS returned — the counterexample.) -/
theorem deniedPositive_amended (env : Env) (premiumOf : String → Bool) (now : Int)
    (st : Store) (userId model : String) (L w : Int)
    (hL : _getLimit env model (premiumOf userId) = .ok L) (hLpos : 0 < L)
    (hw : getTimeWindow env model = some w) :
    (∀ r st', ratelimit env premiumOf now st userId model = .ok (r, st') →
      (r.allowed = true → r.timeRemaining = none) ∧
      (r.allowed = false → r.remaining = 0 ∧
        ∃ t, r.timeRemaining = some t ∧ 0 < t)) ∧
    (∀ r, checkRateLimitWithoutIncrementing env premiumOf now st userId model = .ok r →
      (r.allowed = true → r.timeRemaining = none) ∧
      (r.allowed = false → r.remaining = 0 ∧
        ∃ t, r.timeRemaining = some t ∧ 0 < t)) := by
  constructor
  · intro r st' h
    unfold ratelimit at h
    by_cases hen : isRateLimiterEnabled env
    · rw [if_pos hen] at h
      unfold _ratelimit at h
      simp only [hL, hw] at h
      simp only [Except.ok.injEq] at h
      have hr : r = (_ratelimitCore L (some w) now st (_makeStorageKey userId model)).1 :=
        (congrArg Prod.fst h).symm
      rw [hr]
      exact _ratelimitCore_result_shape L w now st _ hLpos
    · rw [if_neg hen] at h
      simp only [Except.ok.injEq] at h
      have hr : r = ⟨true, -1, none⟩ := (congrArg Prod.fst h).symm
      subst hr
      exact ⟨fun _ => rfl, fun hco => nomatch hco⟩
  · intro r h
    unfold checkRateLimitWithoutIncrementing at h
    by_cases hen : isRateLimiterEnabled env
    · rw [if_pos hen] at h
      unfold getRemaining at h
      simp only [hL, hw] at h
      split at h <;> simp only [Except.ok.injEq] at h
      next hc => exact checkCore_result_shape L w now st _ hLpos r (by rw [if_pos hc, ← h])
      next hc => exact checkCore_result_shape L w now st _ hLpos r (by rw [if_neg hc, ← h])
    · rw [if_neg hen] at h
      simp only [Except.ok.injEq] at h
      subst h
      exact ⟨fun _ => rfl, fun hco => nomatch hco⟩

/-- A configuration that enables the limiter with a 1-minute window and a
ceiling of 2 for the free tier of the gpt-4 family. -/
def envTwoLimit : Env := fun k =>
  if k = "RATELIMITER_ENABLED" then some "true"
  else if k = "RATELIMITER_TIME_WINDOW_MINUTES" then some "1"
  else if k = "RATELIMITER_LIMIT_GPT_4_FREE" then some "2"
  else none

/-- Witness for C10: the amended theorem applied to a concrete positive
limit and window. -/
theorem deniedPositive_amended_witness :
    _getLimit envTwoLimit "gpt-4" false = .ok 2 ∧ (0 : Int) < 2 ∧
    getTimeWindow envTwoLimit "gpt-4" = some 60000 ∧
    (∀ r st', ratelimit envTwoLimit (fun _ => false) 0 emptyStore "u" "gpt-4"
        = .ok (r, st') →
      (r.allowed = true → r.timeRemaining = none) ∧
      (r.allowed = false → r.remaining = 0 ∧
        ∃ t, r.timeRemaining = some t ∧ 0 < t)) :=
  ⟨by rfl, by decide, by decide,
    (deniedPositive_amended envTwoLimit (fun _ => false) 0 emptyStore "u" "gpt-4" 2
      60000 (by rfl) (by decide) (by decide)).1⟩

/-! ### Claim C4: the idempotent peek -/

/-- Run a list of peek calls (one `checkRateLimitWithoutIncrementing` per
listed clock value) against the store.  The peek's result type carries no
store, because the source's read path issues only `zrange`/`zcard`; each
call's result is computed and discarded, and the store is passed on. -/
def runPeeks (env : Env) (premiumOf : String → Bool) (userId model : String) :
    List Int → Store → Store
  | [], st => st
  | t :: ts, st =>
    let _r := checkRateLimitWithoutIncrementing env premiumOf t st userId model
    runPeeks env premiumOf userId model ts st

/-- C4 (confirmed): peeking performs no store mutation — running any
number of peek calls, at any clock values, leaves the store unchanged, and
the next check-and-increment call (result and output store alike) is
exactly what it would have been without the peeks. -/
theorem peekIdempotent (env : Env) (premiumOf : String → Bool) (userId model : String)
    (peekTimes : List Int) (st : Store) (t2 : Int) :
    runPeeks env premiumOf userId model peekTimes st = st ∧
    ratelimit env premiumOf t2 (runPeeks env premiumOf userId model peekTimes st)
        userId model
      = ratelimit env premiumOf t2 st userId model := by
  have hrun : runPeeks env premiumOf userId model peekTimes st = st := by
    induction peekTimes with
    | nil => rfl
    | cons t ts ih => exact ih
  exact ⟨hrun, by rw [hrun]⟩

/-! ### Claim C1: monotonic consumption -/

/-- Run a list of check-and-increment calls (one `_ratelimitCore` per
listed clock value, with the resolved limit and window size fixed) against
the store, collecting the returned results and the final store. -/
def admitSeq (limit : Int) (timeWindow : Option Int) (k : String) :
    List Int → Store → List RateLimitResult × Store
  | [], st => ([], st)
  | t :: ts, st =>
    let r := _ratelimitCore limit timeWindow t st k
    let rest := admitSeq limit timeWindow k ts r.2
    (r.1 :: rest.1, rest.2)

/-- C1 counterexample: resolved limit 2, window 1000 ms, three calls in
the same millisecond (t = 5) with no window expiry between them.  The
sorted set stores a given timestamp once (member = score = `now`), so the
second and the third call each see cardinality 1: the third call — a call
after the 2nd (= limit-th) admitted call — still returns an Allowed
result, not Denied, violating the claim. -/
theorem monotonicConsumption_cex :
    (admitSeq 2 (some 1000) "ratelimit:u:GPT_4" [5, 5, 5] emptyStore).1
      = [⟨true, 1, none⟩, ⟨true, 0, none⟩, ⟨true, 0, none⟩] ∧
    ((admitSeq 2 (some 1000) "ratelimit:u:GPT_4" [5, 5, 5] emptyStore).1.map
        RateLimitResult.allowed) = [true, true, true] := by
  decide

/-- C5 (confirmed): with resolved limit 2 and window size 1000 ms,
starting from an empty record, the check-and-increment sequence at
t = 0, 100, 200, 1001 returns Allowed{remaining=1}, Allowed{remaining=0},
Denied{timeRemaining=800} and Allowed{remaining=1} — the last because a
new window starts. -/
theorem windowReset_trace :
    (admitSeq 2 (some 1000) (_makeStorageKey "u" "gpt-4") [0, 100, 200, 1001]
        emptyStore).1
      = [⟨true, 1, none⟩, ⟨true, 0, none⟩, ⟨false, 0, some 800⟩, ⟨true, 1, none⟩] := by
  decide

/-- The events stored at `k` after the fresh-window transaction: exactly
the one inserted timestamp. -/
theorem startWindow_events (st : Store) (k : String) (t : Int) (secs : Option Int) :
    ((expireKey (zaddKey (delKey st k) k t) k secs) k).events = {t} := by
  simp [expireKey, zaddKey, delKey, emptyRecord]

/-- `zaddKey` at its own key: the timestamp is inserted, the expiry kept. -/
theorem zaddKey_self (st : Store) (k : String) (t : Int) :
    (zaddKey st k t) k = ⟨insert t (st k).events, (st k).ttl⟩ := by
  simp [zaddKey]

/-- One check-and-increment call on an empty record: denied (with null
`timeRemaining`) when the resolved limit is 0, otherwise admitted with
`remaining = limit - 1`, starting a fresh window at `now`. -/
theorem _ratelimitCore_empty (L : Int) (w : Option Int) (now : Int) (st : Store)
    (k : String) (hE : (st k).events = ∅) :
    _ratelimitCore L w now st k =
      if L = 0 then (⟨false, 0, none⟩, st)
      else (⟨true, L - 1, none⟩,
        expireKey (zaddKey (delKey st k) k now) k (w.map (fun v => jsCeilDiv v 1000))) := by
  have hz : zrangeFirst st k = none := by
    simp [zrangeFirst, hE]
  unfold _ratelimitCore getRemainingCore _addRequestCore
  rw [hz]
  by_cases hL0 : L = 0
  · simp [hL0]
  · simp [hL0]

/-- One check-and-increment call on a nonempty record whose window has not
lapsed (`now < earliest + w`): denied with `timeRemaining = windowEnd -
now` and an untouched store when the cardinality has reached the limit,
admitted with `remaining = limit - cardinality - 1` and the event inserted
otherwise. -/
theorem _ratelimitCore_step (L w now : Int) (st : Store) (k : String)
    (hne : (st k).events.Nonempty) (e : Int) (hmin : (st k).events.min' hne = e)
    (hwin : now < e + w) :
    _ratelimitCore L (some w) now st k =
      if L ≤ ((st k).events.card : Int) then
        (⟨false, 0, some (e + w - now)⟩, st)
      else
        (⟨true, L - (st k).events.card - 1, none⟩, zaddKey st k now) := by
  have hz : zrangeFirst st k = some e := by
    simp [zrangeFirst, hne, hmin]
  have hnotge : ¬ (e + w ≤ now) := by omega
  have hnotge2 : ¬ (w ≤ now - e) := by omega
  unfold _ratelimitCore getRemainingCore _addRequestCore
  rw [hz]
  by_cases hcard : L ≤ ((st k).events.card : Int)
  · have h0 : max 0 (L - ((st k).events.card : Int)) = 0 := by omega
    simp [jsGeOpt, hnotge, zcardKey, h0, hcard]
  · have h0 : max 0 (L - ((st k).events.card : Int)) = L - (st k).events.card := by
      omega
    have hpos : L - ((st k).events.card : Int) ≠ 0 := by omega
    simp [jsGeOpt, hnotge, hnotge2, zcardKey, h0, hpos, hcard]

/-- The expected result list for a run of admits inside one window whose
earliest event is `e`: with `c` events already recorded, a call is
admitted with remaining `limit - c - 1` while `c < limit` (incrementing
`c`), and denied with `timeRemaining = e + w - t` afterwards. -/
def expectedFrom (L : Nat) (e w : Int) : Nat → List Int → List RateLimitResult
  | _, [] => []
  | c, t :: ts =>
    if c < L then
      ⟨true, (L : Int) - c - 1, none⟩ :: expectedFrom L e w (c + 1) ts
    else
      ⟨false, 0, some (e + w - t)⟩ :: expectedFrom L e w c ts

/-- `admitSeq` returns one result per call. -/
theorem admitSeq_length (limit : Int) (timeWindow : Option Int) (k : String) :
    ∀ (ts : List Int) (st : Store),
      (admitSeq limit timeWindow k ts st).1.length = ts.length := by
  intro ts
  induction ts with
  | nil => intro st; rfl
  | cons t ts ih =>
    intro st
    simp [admitSeq, ih]

/-- `expectedFrom` has one entry per call. -/
theorem expectedFrom_length (L : Nat) (e w : Int) :
    ∀ (ts : List Int) (c : Nat), (expectedFrom L e w c ts).length = ts.length := by
  intro ts
  induction ts with
  | nil => intro c; rfl
  | cons t ts ih =>
    intro c
    by_cases hc : c < L <;> simp [expectedFrom, hc, ih]

/-- The i-th entry of `expectedFrom` (stated with the option-valued index
so that no bound proofs have to be transported). -/
theorem expectedFrom_getElem? (L : Nat) (e w : Int) :
    ∀ (ts : List Int) (c i : Nat),
      (expectedFrom L e w c ts)[i]? =
        if c + i < L then
          ts[i]?.map fun _ => (⟨true, (L : Int) - c - i - 1, none⟩ : RateLimitResult)
        else
          ts[i]?.map fun t => (⟨false, 0, some (e + w - t)⟩ : RateLimitResult) := by
  intro ts
  induction ts with
  | nil =>
    intro c i
    simp [expectedFrom]
  | cons t ts ih =>
    intro c i
    by_cases hc : c < L
    · simp only [expectedFrom, if_pos hc]
      cases i with
      | zero => simp [hc]
      | succ i =>
        simp only [List.getElem?_cons_succ]
        rw [ih (c + 1) i]
        by_cases hci : c + (i + 1) < L
        · rw [if_pos (show c + 1 + i < L by omega), if_pos hci]
          have hv : ((L : Int) - ((c + 1 : Nat) : Int) - (i : Int) - 1)
              = ((L : Int) - (c : Int) - ((i + 1 : Nat) : Int) - 1) := by
            push_cast
            ring
          rw [hv]
        · rw [if_neg (show ¬ c + 1 + i < L by omega), if_neg hci]
    · simp only [expectedFrom, if_neg hc]
      cases i with
      | zero => simp [hc]
      | succ i =>
        simp only [List.getElem?_cons_succ]
        rw [ih c i]
        rw [if_neg (show ¬ c + i < L by omega), if_neg (show ¬ c + (i + 1) < L by omega)]

/-- Running admits from a nonempty record inside its window, at strictly
increasing clock values that all stay below the window end and above every
recorded event, produces exactly the `expectedFrom` results. -/
theorem admitSeq_run (L : Nat) (w : Int) (k : String) :
    ∀ (ts : List Int) (st : Store) (e : Int) (hne : (st k).events.Nonempty),
      (st k).events.min' hne = e →
      (∀ x ∈ (st k).events, ∀ t ∈ ts, x < t) →
      (∀ t ∈ ts, t < e + w) →
      List.Sorted (· < ·) ts →
      (admitSeq (L : Int) (some w) k ts st).1
        = expectedFrom L e w (st k).events.card ts := by
  intro ts
  induction ts with
  | nil =>
    intro st e hne hmin hgt hwin hsort
    rfl
  | cons t ts ih =>
    intro st e hne hmin hgt hwin hsort
    have hwt : t < e + w := hwin t (by simp)
    have hstep := _ratelimitCore_step (L : Int) w t st k hne e hmin hwt
    by_cases hc : (st k).events.card < L
    · have hcond : ¬ ((L : Int) ≤ ((st k).events.card : Int)) := by
        exact_mod_cast Nat.not_le.mpr hc
      rw [if_neg hcond] at hstep
      have htnotmem : t ∉ (st k).events := fun hmem =>
        lt_irrefl t (hgt t hmem t (by simp))
      have hset : ((zaddKey st k t) k).events = insert t (st k).events :=
        congrArg WindowRecord.events (zaddKey_self st k t)
      have hne' : ((zaddKey st k t) k).events.Nonempty := by
        rw [hset]
        exact Finset.insert_nonempty t _
      have heE : e ∈ (st k).events := hmin ▸ Finset.min'_mem _ hne
      have hle : e ≤ t := le_of_lt (hgt e heE t (by simp))
      have hmin' : ((zaddKey st k t) k).events.min' hne' = e := by
        apply le_antisymm
        · apply Finset.min'_le
          rw [hset]
          exact Finset.mem_insert_of_mem heE
        · apply Finset.le_min'
          intro y hy
          rw [hset, Finset.mem_insert] at hy
          rcases hy with rfl | hyE
          · exact hle
          · exact hmin ▸ Finset.min'_le _ y hyE
      have hcard' : ((zaddKey st k t) k).events.card = (st k).events.card + 1 := by
        rw [zaddKey_self]
        exact Finset.card_insert_of_not_mem htnotmem
      have hgt' : ∀ x ∈ ((zaddKey st k t) k).events, ∀ t' ∈ ts, x < t' := by
        rw [zaddKey_self]
        intro x hx t' ht'
        rcases Finset.mem_insert.mp hx with hxt | hxE
        · subst hxt
          exact (List.sorted_cons.mp hsort).1 t' ht'
        · exact hgt x hxE t' (by simp [ht'])
      have hwin' : ∀ t' ∈ ts, t' < e + w := fun t' ht' => hwin t' (by simp [ht'])
      have hsort' : List.Sorted (· < ·) ts := (List.sorted_cons.mp hsort).2
      have hrest := ih (zaddKey st k t) e hne' hmin' hgt' hwin' hsort'
      simp only [admitSeq, hstep, hrest, hcard']
      simp [expectedFrom, hc]
    · have hcond : (L : Int) ≤ ((st k).events.card : Int) := by
        exact_mod_cast Nat.le_of_not_lt hc
      rw [if_pos hcond] at hstep
      have hgt' : ∀ x ∈ (st k).events, ∀ t' ∈ ts, x < t' :=
        fun x hx t' ht' => hgt x hx t' (by simp [ht'])
      have hwin' : ∀ t' ∈ ts, t' < e + w := fun t' ht' => hwin t' (by simp [ht'])
      have hsort' : List.Sorted (· < ·) ts := (List.sorted_cons.mp hsort).2
      have hrest := ih st e hne hmin hgt' hwin' hsort'
      simp only [admitSeq, hstep, hrest]
      simp [expectedFrom, hc]

/-- With a resolved limit of 0, every call on an empty record is denied
with null `timeRemaining` and the record stays empty. -/
theorem admitSeq_zero (w : Option Int) (k : String) :
    ∀ (ts : List Int) (st : Store), (st k).events = ∅ →
      (admitSeq 0 w k ts st).1 = ts.map (fun _ => ⟨false, 0, none⟩) := by
  intro ts
  induction ts with
  | nil => intro st hE; rfl
  | cons t ts ih =>
    intro st hE
    have hstep := _ratelimitCore_empty 0 w t st k hE
    rw [if_pos rfl] at hstep
    simp [admitSeq, hstep, ih st hE]

/-- Full pointwise characterization of a run of admits from the empty
store, at strictly increasing clock values that all stay inside the window
opened by the first call: the i-th call is admitted with remaining
`limit - i - 1` while `i < limit`, and denied afterwards — with
`timeRemaining = windowEnd - t_i` when the limit is positive and `null`
when the limit is 0 (the record then stays empty). -/
theorem admitSeq_characterization (L : Nat) (w : Int) (k : String) (t0 : Int)
    (rest : List Int) (hsort : List.Sorted (· < ·) (t0 :: rest))
    (hwin : ∀ t ∈ t0 :: rest, t < t0 + w) :
    ∀ i : Nat, ((admitSeq (L : Int) (some w) k (t0 :: rest) emptyStore).1)[i]? =
      if i < L then
        ((t0 :: rest)[i]?.map fun _ => (⟨true, (L : Int) - i - 1, none⟩ : RateLimitResult))
      else if L = 0 then
        ((t0 :: rest)[i]?.map fun _ => (⟨false, 0, none⟩ : RateLimitResult))
      else
        (t0 :: rest)[i]?.map fun t => (⟨false, 0, some (t0 + w - t)⟩ : RateLimitResult) := by
  intro i
  by_cases hL0 : L = 0
  · subst hL0
    rw [show ((0 : Nat) : Int) = (0 : Int) from rfl]
    rw [admitSeq_zero (some w) k (t0 :: rest) emptyStore rfl]
    rw [List.getElem?_map]
    rw [if_neg (Nat.not_lt_zero i), if_pos rfl]
  · have hE : (emptyStore k).events = ∅ := rfl
    have hstep := _ratelimitCore_empty (L : Int) (some w) t0 emptyStore k hE
    have hLne : ((L : Nat) : Int) ≠ 0 := by
      exact_mod_cast hL0
    rw [if_neg hLne] at hstep
    set st1 : Store :=
      expireKey (zaddKey (delKey emptyStore k) k t0) k
        ((some w).map (fun v => jsCeilDiv v 1000)) with hst1
    have hev1 : (st1 k).events = {t0} := startWindow_events emptyStore k t0 _
    have hne1 : (st1 k).events.Nonempty := by
      rw [hev1]
      exact Finset.singleton_nonempty t0
    have hmin1 : (st1 k).events.min' hne1 = t0 := by
      apply le_antisymm
      · apply Finset.min'_le
        rw [hev1]
        exact Finset.mem_singleton_self t0
      · apply Finset.le_min'
        intro y hy
        rw [hev1, Finset.mem_singleton] at hy
        exact le_of_eq hy.symm
    have hcard1 : (st1 k).events.card = 1 := by
      rw [hev1]
      exact Finset.card_singleton t0
    have hgt1 : ∀ x ∈ (st1 k).events, ∀ t ∈ rest, x < t := by
      intro x hx t ht
      rw [hev1, Finset.mem_singleton] at hx
      subst hx
      exact (List.sorted_cons.mp hsort).1 t ht
    have hwin1 : ∀ t ∈ rest, t < t0 + w := fun t ht => hwin t (by simp [ht])
    have hsort1 : List.Sorted (· < ·) rest := (List.sorted_cons.mp hsort).2
    have hrun := admitSeq_run L w k rest st1 t0 hne1 hmin1 hgt1 hwin1 hsort1
    rw [hcard1] at hrun
    have hseq : (admitSeq (L : Int) (some w) k (t0 :: rest) emptyStore).1
        = ⟨true, (L : Int) - 1, none⟩ :: expectedFrom L t0 w 1 rest := by
      simp only [admitSeq, hstep, ← hst1, hrun]
    rw [hseq]
    cases i with
    | zero =>
      have h0L : 0 < L := Nat.pos_of_ne_zero hL0
      simp [h0L]
    | succ i =>
      simp only [List.getElem?_cons_succ]
      rw [expectedFrom_getElem? L t0 w rest 1 i]
      by_cases hiL : i + 1 < L
      · rw [if_pos (show 1 + i < L by omega), if_pos hiL]
        have hv : ((L : Int) - ((1 : Nat) : Int) - (i : Int) - 1)
            = ((L : Int) - ((i + 1 : Nat) : Int) - 1) := by
          push_cast
          ring
        rw [hv]
      · rw [if_neg (show ¬ 1 + i < L by omega), if_neg hiL, if_neg hL0]

/-- C1 (corrected): for every storage key, resolved limit `L` and window
size `w`, in every sequence of check-and-increment calls starting from an
empty record whose call timestamps are STRICTLY increasing (no two calls
in the same millisecond) and which sees no window expiry (every call
before `t0 + w`): the returned `remaining` is non-increasing across the
sequence, the first `L` calls are the admitted ones (the i-th returning
`remaining = L - i - 1`, hence exactly `0` on the `L`-th admitted call),
and every call after the `L`-th returns a Denied result.  Without the
strict-increase proviso the claim fails (see the counterexample): calls in
the same millisecond collapse to one member of the sorted set. -/
theorem monotonicConsumption_amended (L : Nat) (w : Int) (k : String) (t0 : Int)
    (rest : List Int) (hsort : List.Sorted (· < ·) (t0 :: rest))
    (hwin : ∀ t ∈ t0 :: rest, t < t0 + w) :
    ∀ (rs : List RateLimitResult),
      rs = (admitSeq (L : Int) (some w) k (t0 :: rest) emptyStore).1 →
      rs.length = (t0 :: rest).length ∧
      (∀ i j (hi : i < rs.length) (hj : j < rs.length), i ≤ j →
        (rs.get ⟨j, hj⟩).remaining ≤ (rs.get ⟨i, hi⟩).remaining) ∧
      (∀ i (hi : i < rs.length), i < L →
        rs.get ⟨i, hi⟩ = ⟨true, (L : Int) - i - 1, none⟩) ∧
      (∀ (h1 : 1 ≤ L) (hL1 : L - 1 < rs.length),
        rs.get ⟨L - 1, hL1⟩ = ⟨true, 0, none⟩) ∧
      (∀ i (hi : i < rs.length), L ≤ i → (rs.get ⟨i, hi⟩).allowed = false) := by
  intro rs hrs
  have hlen : rs.length = (t0 :: rest).length := by
    rw [hrs]
    exact admitSeq_length _ _ _ _ _
  have hchar := admitSeq_characterization L w k t0 rest hsort hwin
  have hval : ∀ i (hi : i < rs.length),
      rs.get ⟨i, hi⟩ =
        if i < L then (⟨true, (L : Int) - i - 1, none⟩ : RateLimitResult)
        else if L = 0 then ⟨false, 0, none⟩
        else ⟨false, 0, some (t0 + w - (t0 :: rest).get ⟨i, hlen ▸ hi⟩)⟩ := by
    intro i hi
    have hi' : i < (t0 :: rest).length := hlen ▸ hi
    have h1 : rs[i]? = some (rs.get ⟨i, hi⟩) := by
      rw [List.getElem?_eq_getElem hi]
      simp [List.get_eq_getElem]
    have h2 : (t0 :: rest)[i]? = some ((t0 :: rest).get ⟨i, hi'⟩) := by
      rw [List.getElem?_eq_getElem hi']
      simp [List.get_eq_getElem]
    have h3 := hchar i
    rw [← hrs] at h3
    rw [h1, h2] at h3
    by_cases hiL : i < L
    · rw [if_pos hiL] at h3 ⊢
      simp only [Option.map_some'] at h3
      exact Option.some.inj h3
    · rw [if_neg hiL] at h3 ⊢
      by_cases hL0 : L = 0
      · rw [if_pos hL0] at h3 ⊢
        simp only [Option.map_some'] at h3
        exact Option.some.inj h3
      · rw [if_neg hL0] at h3 ⊢
        simp only [Option.map_some'] at h3
        exact Option.some.inj h3
  refine ⟨hlen, ?_, ?_, ?_, ?_⟩
  · intro i j hi hj hij
    rw [hval i hi, hval j hj]
    split_ifs <;> simp <;> omega
  · intro i hi hiL
    rw [hval i hi, if_pos hiL]
  · intro h1 hL1
    have hiL : L - 1 < L := by omega
    rw [hval (L - 1) hL1, if_pos hiL]
    have hz : (L : Int) - ((L - 1 : Nat) : Int) - 1 = 0 := by omega
    rw [hz]
  · intro i hi hLi
    rw [hval i hi, if_neg (show ¬ i < L by omega)]
    by_cases hL0 : L = 0
    · rw [if_pos hL0]
    · rw [if_neg hL0]

/-- Witness for C1: the amended theorem applied to limit 2, window
1000 ms, calls at t = 0 and t = 100. -/
theorem monotonicConsumption_amended_witness :
    List.Sorted (· < ·) ((0 : Int) :: [100]) ∧
    (∀ t ∈ (0 : Int) :: [100], t < 0 + 1000) ∧
    (∀ (rs : List RateLimitResult),
      rs = (admitSeq ((2 : Nat) : Int) (some 1000) "k" ((0 : Int) :: [100]) emptyStore).1 →
      rs.length = ((0 : Int) :: [100]).length ∧
      (∀ i j (hi : i < rs.length) (hj : j < rs.length), i ≤ j →
        (rs.get ⟨j, hj⟩).remaining ≤ (rs.get ⟨i, hi⟩).remaining) ∧
      (∀ i (hi : i < rs.length), i < 2 →
        rs.get ⟨i, hi⟩ = ⟨true, ((2 : Nat) : Int) - i - 1, none⟩) ∧
      (∀ (h1 : 1 ≤ 2) (hL1 : 2 - 1 < rs.length),
        rs.get ⟨2 - 1, hL1⟩ = ⟨true, 0, none⟩) ∧
      (∀ i (hi : i < rs.length), 2 ≤ i → (rs.get ⟨i, hi⟩).allowed = false)) :=
  ⟨by decide, by decide,
    monotonicConsumption_amended 2 1000 "k" 0 [100] (by decide) (by decide)⟩
